import Mathlib

/-!
# Verification of the encrypted-timeline synchronization engine

A shallow embedding of `src/timeline/TimelineView.cpp` (nheko): the
pending-message queue, its reconciliation between transport acknowledgment
and live-sync observation, history pagination, the decryption resolver,
and the group-encryption key-distribution round.  Pure logic is translated
directly from the source; external collaborators (session/key store,
transport client, olm primitives) are abstracted as oracle parameters.
Parts of the repository that are declared outside `TimelineView.cpp`
(`StateKeeper`, `olm::encrypt_group_message`) are modelled from the
specification and marked as such in their doc comments.
-/

/-! ## Event data model (mtx::events) -/

/-- `mtx::events::MessageType` (message subtypes of m.room.message). -/
inductive MessageType
  | Audio | Emote | File | Image | Notice | Text | Video | Unknown
  deriving DecidableEq, Repr

/-- `mtx::events::EventType`, restricted to the variants dispatched in
`TimelineView::parseMessageEvent`. -/
inductive EventType
  | RoomMessage | RoomEncrypted | RoomRedaction | RoomEncryption | Sticker | Other
  deriving DecidableEq, Repr

/-- A timeline event (`mtx::events::collections::TimelineEvents`), reduced to
the attributes the engine inspects: variant tag, message subtype, event id,
sender, origin timestamp and body. -/
structure TimelineEvent where
  kind : EventType
  msgtype : MessageType := MessageType.Unknown
  event_id : String := ""
  sender : String := ""
  origin_server_ts : Nat := 0
  body : String := ""
  deriving DecidableEq, Repr

/-! ## Preview-candidate selectors

`TimelineView::findFirstViewableEvent` / `findLastViewableEvent`
(TimelineView.cpp:1128-1147).  The C++ versions dereference
`events.front()` / `events.back()` as a fallback; the embedding returns
`Option`, with `none` exactly when that dereference would hit an empty
vector. -/

/-- `TimelineView::findFirstViewableEvent`: first event whose type is
`RoomMessage`, falling back to the first event of the batch. -/
def findFirstViewableEvent (events : List TimelineEvent) : Option TimelineEvent :=
  match events.find? (fun e => e.kind == EventType.RoomMessage) with
  | some e => some e
  | none => events.head?

/-- `TimelineView::findLastViewableEvent`: last event whose type is
`RoomMessage` or `RoomEncrypted`, falling back to the last event of the
batch. -/
def findLastViewableEvent (events : List TimelineEvent) : Option TimelineEvent :=
  match events.reverse.find?
      (fun e => e.kind == EventType.RoomMessage || e.kind == EventType.RoomEncrypted) with
  | some e => some e
  | none => events.getLast?

/-! ## Decryption resolver

`TimelineView::parseEncryptedEvent` (TimelineView.cpp:297-370).  The cache
client and the olm client are external collaborators; their fallible calls
are embedded as oracle functions returning `Except`, where `Except.error`
stands for the exception (`lmdb::error` resp. `mtx::crypto::olm_exception`)
the C++ call may throw, carrying its diagnostic message. -/

/-- `MegolmSessionIndex`: lookup key of an inbound group session. -/
structure MegolmSessionIndex where
  room_id : String
  session_id : String
  sender_key : String
  deriving DecidableEq, Repr

/-- Content of an `m.room.encrypted` event. -/
structure EncryptedContent where
  session_id : String
  sender_key : String
  ciphertext : String
  deriving DecidableEq, Repr

/-- `mtx::events::EncryptedEvent<mtx::events::msg::Encrypted>`, reduced to the
fields `parseEncryptedEvent` reads. -/
structure EncryptedEvent where
  event_id : String
  sender : String
  origin_server_ts : Nat
  content : EncryptedContent
  deriving DecidableEq, Repr

/-- `DecryptionResult`: the typed result returned by the resolver. -/
structure DecryptionResult where
  event : TimelineEvent
  isDecrypted : Bool
  deriving DecidableEq, Repr

/-- The cache client (session store), abstracted: each fallible entry point the
resolver uses, with `Except.error` for a thrown `lmdb::error`.  Inbound
sessions are identified by their `MegolmSessionIndex`; a retrieved session is
abstracted to an opaque handle (`Nat`). -/
structure CacheClient where
  inboundMegolmSessionExists : MegolmSessionIndex → Except String Bool
  getInboundMegolmSession : MegolmSessionIndex → Except String Nat

/-- The olm client, abstracted: group decryption over a session handle, with
`Except.error` for a thrown `mtx::crypto::olm_exception`. -/
structure OlmClient where
  decrypt_group_message : Nat → String → Except String String

/-- The placeholder ("dummy") notice event the resolver builds from the
original event's id/sender/timestamp (TimelineView.cpp:305-309). -/
def dummyEvent (e : EncryptedEvent) (body : String) : TimelineEvent :=
  { kind := EventType.RoomMessage
    msgtype := MessageType.Notice
    event_id := e.event_id
    sender := e.sender
    origin_server_ts := e.origin_server_ts
    body := body }

/-- `TimelineView::parseEncryptedEvent`.  `parse` abstracts
`json::parse(msg_str)` followed by
`mtx::responses::utils::parse_timeline_events` applied to the decrypted
plaintext merged with the original event's envelope (id, sender, timestamp,
unsigned metadata); `Except.error` stands for a thrown
`nlohmann::json::parse_error`.  In the source these calls
(TimelineView.cpp:351 and 363) run OUTSIDE both try/catch blocks (which end
at lines 324 and 348), so that exception propagates past the resolver: the
embedding returns `Except String DecryptionResult`, where `Except.error`
is an exception escaping the resolver's boundary and `Except.ok` a typed
result.  Storage (`lmdb::error`) and cryptographic (`olm_exception`)
failures during lookup/decrypt are caught and converted into typed
results. -/
def parseEncryptedEvent (cache : CacheClient) (olm : OlmClient)
    (parse : String → EncryptedEvent → Except String (List TimelineEvent))
    (room_id : String) (e : EncryptedEvent) : Except String DecryptionResult :=
  let index : MegolmSessionIndex :=
    { room_id := room_id
      session_id := e.content.session_id
      sender_key := e.content.sender_key }
  match cache.inboundMegolmSessionExists index with
  | Except.error _ =>
      Except.ok
        { event := dummyEvent e "-- Decryption Error (failed to communicate with DB) --"
          isDecrypted := false }
  | Except.ok false =>
      Except.ok
        { event := dummyEvent e "-- Encrypted Event (No keys found for decryption) --"
          isDecrypted := false }
  | Except.ok true =>
    match cache.getInboundMegolmSession index with
    | Except.error _ =>
        Except.ok
          { event := dummyEvent e "-- Decryption Error (failed to retrieve megolm keys from db) --"
            isDecrypted := false }
    | Except.ok session =>
      match olm.decrypt_group_message session e.content.ciphertext with
      | Except.error reason =>
          Except.ok
            { event := dummyEvent e ("-- Decryption Error (" ++ reason ++ ") --")
              isDecrypted := false }
      | Except.ok msg_str =>
        match parse msg_str e with
        | Except.error exc => Except.error exc
        | Except.ok [ev] => Except.ok { event := ev, isDecrypted := true }
        | Except.ok _ =>
            Except.ok
              { event := dummyEvent e "-- Encrypted Event (Unknown event type) --"
                isDecrypted := false }

/-! ## Pending-message queue

`PendingMessage`, `pending_msgs_` / `pending_sent_msgs_`, and the widget
registry `eventIds_` (TimelineView.cpp:663-690, 725-731, 733-752, 868-921).
Timeline item widgets are heap objects referenced from several places; the
embedding keeps them in an association list keyed by an opaque widget id, and
a `PendingMessage.widget` holds an optional widget id (`m.widget` may be
null in the source).  `Widget.receivedCount` counts calls to
`TimelineItem::markReceived`, so "marked received exactly once" is provable;
`markReceived` itself sets the `received` flag. -/

/-- State of a rendered `TimelineItem` widget, reduced to what the queue
logic reads and writes: sent/received marks and the bound event id. -/
structure Widget where
  sent : Bool := false
  received : Bool := false
  receivedCount : Nat := 0
  eventId : Option String := none
  deriving DecidableEq, Repr

/-- `TimelineItem::markSent`. -/
def markSentW (w : Widget) : Widget := { w with sent := true }

/-- `TimelineItem::markReceived` (the encrypted flag only affects the icon
drawn, not the queue-visible state). -/
def markReceivedW (w : Widget) : Widget :=
  { w with received := true, receivedCount := w.receivedCount + 1 }

/-- `TimelineItem::setEventId`. -/
def setEventIdW (event_id : String) (w : Widget) : Widget :=
  { w with eventId := some event_id }

/-- `PendingMessage` (declared in timeline/TimelineView.h), reduced to the
fields the queue logic reads: transaction id, server event id (empty until
assigned), encryption flag and the widget pointer. -/
structure PendingMessage where
  txn_id : String
  event_id : String := ""
  is_encrypted : Bool := false
  widget : Option Nat := none
  deriving DecidableEq, Repr

/-- Widget store lookup (dereference of a `TimelineItem *`). -/
def lookupW (ws : List (Nat × Widget)) (i : Nat) : Option Widget :=
  (ws.find? (fun p => p.1 == i)).map (fun p => p.2)

/-- Widget store update: apply `f` to the widget with id `i`. -/
def updateW (ws : List (Nat × Widget)) (i : Nat) (f : Widget → Widget) :
    List (Nat × Widget) :=
  ws.map (fun p => if p.1 == i then (p.1, f p.2) else p)

/-- `eventIds_[event_id] = widget` (QHash insert-or-overwrite). -/
def insertEid (m : List (String × Nat)) (k : String) (v : Nat) :
    List (String × Nat) :=
  (k, v) :: m.filter (fun p => !(p.1 == k))

/-- `eventIds_[event_id]` lookup. -/
def lookupEid (m : List (String × Nat)) (k : String) : Option Nat :=
  (m.find? (fun p => p.1 == k)).map (fun p => p.2)

/-- The queue-facing state of a `TimelineView`: the FIFO of unacknowledged
messages (front = head), the list of messages acknowledged by the server but
not yet observed via sync, the widget store, and the event-id → widget
registry. -/
structure QueueState where
  pending_msgs : List PendingMessage := []
  pending_sent_msgs : List PendingMessage := []
  widgets : List (Nat × Widget) := []
  eventIds : List (String × Nat) := []
  deriving DecidableEq, Repr

/-- `TimelineView::sendNextPendingMessage` (TimelineView.cpp:733-752): if the
queue is non-empty, mark the head's widget as sent and hand the head to the
transport layer (encrypted or plain path — both transmit the head).  The
second component is the transaction id handed to the transport, `none` when
the queue was empty. -/
def sendNextPendingMessage (s : QueueState) : QueueState × Option String :=
  match s.pending_msgs with
  | [] => (s, none)
  | m :: _ =>
    let s' :=
      match m.widget with
      | some w => { s with widgets := updateW s.widgets w markSentW }
      | none => s
    (s', some m.txn_id)

/-- `TimelineView::updatePendingMessage` (TimelineView.cpp:663-690), the
transport-acknowledgment path.  If the head of `pending_msgs_` carries the
acknowledged transaction id: dequeue it, assign the server event id, register
the widget under that event id, and — unless the sync path already marked the
widget received — mark it received and move the message to
`pending_sent_msgs_`.  The function unconditionally ends with
`sendNextPendingMessage()`; its transmit action is returned as the second
component. -/
def updatePendingMessage (s : QueueState) (txn_id : String) (event_id : String) :
    QueueState × Option String :=
  let s' :=
    match s.pending_msgs with
    | [] => s
    | msg :: rest =>
      if msg.txn_id == txn_id then
        let msg' := { msg with event_id := event_id }
        match msg'.widget with
        | some w =>
          let s1 : QueueState :=
            { s with pending_msgs := rest
                     widgets := updateW s.widgets w (setEventIdW event_id)
                     eventIds := insertEid s.eventIds event_id w }
          match lookupW s1.widgets w with
          | some wd =>
            if !wd.received then
              { s1 with widgets := updateW s1.widgets w markReceivedW
                        pending_sent_msgs := s1.pending_sent_msgs ++ [msg'] }
            else s1
          | none => s1
        | none => { s with pending_msgs := rest }
      else s
  sendNextPendingMessage s'

/-- The first loop of `TimelineView::removePendingMessage`
(TimelineView.cpp:888-898): remove every element of `pending_sent_msgs_`
whose transaction id matches, recording whether a removal left the whole list
empty (in the source that check runs right after each `removeAt`; matching is
on a unique transaction id, so at most one element is removed). -/
def removeSentAux (txn_id : String) (kept : List PendingMessage)
    (rest : List PendingMessage) (trig : Bool) : List PendingMessage × Bool :=
  match rest with
  | [] => (kept, trig)
  | m :: ms =>
    if m.txn_id == txn_id then
      removeSentAux txn_id kept ms (trig || (kept.isEmpty && ms.isEmpty))
    else
      removeSentAux txn_id (kept ++ [m]) ms trig

/-- The first loop of `TimelineView::removePendingMessage` applied to the
state: purge `pending_sent_msgs_` of the transaction id, invoking
`sendNextPendingMessage()` when a removal empties it.  The second component
is the transmit action of that conditional call. -/
def removeSentLoop (s : QueueState) (txn_id : String) : QueueState × Option String :=
  let r := removeSentAux txn_id [] s.pending_sent_msgs false
  let s1 : QueueState := { s with pending_sent_msgs := r.1 }
  if r.2 then sendNextPendingMessage s1 else (s1, none)

/-- The second loop of `TimelineView::removePendingMessage`
(TimelineView.cpp:899-912): the first element of `pending_msgs_` carrying
the transaction id (if any) has its widget marked received; the element
itself stays queued until the acknowledgment arrives. -/
def syncMarkReceived (s : QueueState) (txn_id : String) : QueueState :=
  match s.pending_msgs.find? (fun m => m.txn_id == txn_id) with
  | some m =>
    match m.widget with
    | some w => { s with widgets := updateW s.widgets w markReceivedW }
    | none => s
  | none => s

/-- `TimelineView::removePendingMessage` (TimelineView.cpp:882-913), the
live-sync path.  Empty transaction ids are ignored; otherwise the two loops
run in order. -/
def removePendingMessage (s : QueueState) (txn_id : String) :
    QueueState × Option String :=
  if txn_id == "" then (s, none)
  else
    let r := removeSentLoop s txn_id
    (syncMarkReceived r.1 txn_id, r.2)

/-- `TimelineView::handleNewUserMessage` (TimelineView.cpp:725-731): enqueue;
transmit immediately only if this is the only pending message and nothing is
awaiting its sync echo.  The second component is the transmit action. -/
def handleNewUserMessage (s : QueueState) (m : PendingMessage) :
    QueueState × Option String :=
  let s' := { s with pending_msgs := s.pending_msgs ++ [m] }
  if s'.pending_msgs.length == 1 && s'.pending_sent_msgs.isEmpty then
    sendNextPendingMessage s'
  else (s', none)

/-- The retry schedule produced by a failed transmission. -/
inductive Scheduled
  | sendNextAfter (delayMs : Nat)
  deriving DecidableEq, Repr

/-- `TimelineView::handleFailedMessage` (TimelineView.cpp:915-921): the state
is untouched (`Q_UNUSED(txn_id)`); a `QTimer::singleShot(2000, ...,
SLOT(sendNextPendingMessage()))` is scheduled. -/
def handleFailedMessage (s : QueueState) (txn_id : String) :
    QueueState × Scheduled :=
  (s, Scheduled.sendNextAfter 2000)

/-- `TimelineView::sendRoomMessageHandler` (TimelineView.cpp:1175-1191): a
transport error emits `messageFailed`, success emits `messageSent`. -/
inductive SendSignal
  | messageFailed (txn_id : String)
  | messageSent (txn_id : String) (event_id : String)
  deriving DecidableEq, Repr

/-- `TimelineView::sendRoomMessageHandler`. -/
def sendRoomMessageHandler (txn_id : String) (res_event_id : String)
    (err : Bool) : SendSignal :=
  if err then SendSignal.messageFailed txn_id
  else SendSignal.messageSent txn_id res_event_id

/-- The externally driven events of the queue, wired in `TimelineView::init`:
`messageSent → updatePendingMessage`, `messageFailed → handleFailedMessage`,
sync observation → `removePendingMessage`, user input →
`handleNewUserMessage`. -/
inductive QueueEvent
  | newMessage (m : PendingMessage)
  | serverAck (txn_id event_id : String)
  | syncEcho (txn_id : String)
  | transmitFailed (txn_id : String)

/-- One step of the queue under an external event. -/
def queueStep (s : QueueState) (e : QueueEvent) : QueueState :=
  match e with
  | QueueEvent.newMessage m => (handleNewUserMessage s m).1
  | QueueEvent.serverAck txn eid => (updatePendingMessage s txn eid).1
  | QueueEvent.syncEcho txn => (removePendingMessage s txn).1
  | QueueEvent.transmitFailed txn => (handleFailedMessage s txn).1

/-! ## Timeline merging and history pagination

`isStartOfTimeline`, `addBackwardsEvents`, `addEvents`, `fetchHistory`,
`sliderMoved`, `clearTimeline` (TimelineView.cpp:109-167, 169-212, 466-492,
1015-1035).  Rendering is abstracted: `renderTopEvents` /
`renderBottomEvents` append the batch they were given to a rendered-batch
log and advance the widget count of `scroll_layout_` (the source may create
fewer widgets than events when `parseMessageEvent` returns null; the count's
only modelled uses are the guards comparing it with zero). -/

/-- `mtx::responses::Messages`: a `/messages` pagination response. -/
structure Messages where
  start : String
  end_ : String
  chunk : List TimelineEvent
  deriving DecidableEq, Repr

/-- `TimelineView::isStartOfTimeline` (TimelineView.cpp:169-173). -/
def isStartOfTimeline (msgs : Messages) : Bool :=
  msgs.chunk.length == 0 && (msgs.end_.isEmpty || msgs.end_ == msgs.start)

/-- The pagination-facing state of a `TimelineView`. -/
structure TimelineState where
  isTimelineFinished : Bool := false
  isPaginationInProgress : Bool := false
  isInitialSync : Bool := true
  prev_batch_token : String := ""
  topMessages : List TimelineEvent := []
  bottomMessages : List TimelineEvent := []
  renderedTop : List (List TimelineEvent) := []
  renderedBottom : List (List TimelineEvent) := []
  scrollLayoutCount : Nat := 0
  isVisible : Bool := true
  deriving DecidableEq, Repr

/-- `TimelineView::addBackwardsEvents` (TimelineView.cpp:175-212): the
handler of a `/messages` response.  At start-of-timeline the room is marked
exhausted and nothing else changes.  Otherwise the chunk is staged at the end
of `topMessages_` in batch order, the preview candidate
(`findFirstViewableEvent`) is surfaced when this is the first batch and the
layout is still empty, a visible view renders and clears the staging buffer,
and the cursor advances to the response's end token.  The second component is
the event passed to `notifyForLastEvent`, if any. -/
def addBackwardsEvents (s : TimelineState) (msgs : Messages) :
    TimelineState × Option TimelineEvent :=
  if isStartOfTimeline msgs then
    ({ s with isTimelineFinished := true }, none)
  else
    let s1 : TimelineState :=
      { s with isTimelineFinished := false
               topMessages := s.topMessages ++ msgs.chunk }
    let notif :=
      if !s1.topMessages.isEmpty && s1.scrollLayoutCount == 0 then
        findFirstViewableEvent s1.topMessages
      else none
    let s2 : TimelineState :=
      if s1.isVisible then
        { s1 with renderedTop := s1.renderedTop ++ [s1.topMessages]
                  scrollLayoutCount := s1.scrollLayoutCount + s1.topMessages.length
                  topMessages := [] }
      else s1
    ({ s2 with prev_batch_token := msgs.end_
               isPaginationInProgress := false }, notif)

/-- `mtx::responses::Timeline`: the live-sync event batch for a room. -/
structure SyncTimeline where
  events : List TimelineEvent
  prev_batch : String
  deriving DecidableEq, Repr

/-- `TimelineView::addEvents` (TimelineView.cpp:466-492): the live-sync
handler.  Events are appended to `bottomMessages_` in arrival order; when the
buffer is non-empty the room preview is updated with
`findLastViewableEvent`; a visible view renders and clears the buffer.  The
second component is the event passed to `notifyForLastEvent`, if any. -/
def addEvents (s : TimelineState) (timeline : SyncTimeline) :
    TimelineState × Option TimelineEvent :=
  let s0 : TimelineState :=
    if s.isInitialSync then
      { s with prev_batch_token := timeline.prev_batch, isInitialSync := false }
    else s
  let s1 : TimelineState :=
    { s0 with bottomMessages := s0.bottomMessages ++ timeline.events }
  let notif :=
    if !s1.bottomMessages.isEmpty then findLastViewableEvent s1.bottomMessages
    else none
  let s2 : TimelineState :=
    if s1.isVisible && !s1.bottomMessages.isEmpty then
      { s1 with renderedBottom := s1.renderedBottom ++ [s1.bottomMessages]
                scrollLayoutCount := s1.scrollLayoutCount + s1.bottomMessages.length
                bottomMessages := [] }
    else s1
  (s2, notif)

/-- `TimelineView::fetchHistory` (TimelineView.cpp:109-124), invoked by the
pagination timer.  The second component records whether `getMessages()` (a
history fetch) was issued. -/
def fetchHistory (s : TimelineState) (scrollbarActivated : Bool) :
    TimelineState × Bool :=
  if !scrollbarActivated && !s.isTimelineFinished then
    if !s.isVisible then (s, false)
    else ({ s with isPaginationInProgress := true }, true)
  else (s, false)

/-- `TimelineView::sliderMoved` (TimelineView.cpp:145-167), invoked when the
scrollbar moves; `gap` is the compile-time constant `SCROLL_BAR_GAP`
(declared in the header).  The second component records whether
`getMessages()` was issued. -/
def sliderMoved (s : TimelineState) (position gap : Nat)
    (scrollbarVisible : Bool) : TimelineState × Bool :=
  if !scrollbarVisible then (s, false)
  else if position < gap then
    if s.isTimelineFinished then (s, false)
    else if s.isPaginationInProgress then (s, false)
    else ({ s with isPaginationInProgress := true }, true)
  else (s, false)

/-- `TimelineView::clearTimeline` (TimelineView.cpp:1015-1035): deletes all
widgets, clears the cursor and the staging buffers.  `isTimelineFinished` is
left untouched. -/
def clearTimeline (s : TimelineState) : TimelineState :=
  { s with prev_batch_token := ""
           topMessages := []
           bottomMessages := []
           renderedTop := []
           renderedBottom := []
           scrollLayoutCount := 0 }

/-- The spontaneous (user- or timer-driven) operations that can run between
pagination responses: a pagination-timer tick, a scrollbar move, and the
widget purge on hide.  A `/messages` response (`addBackwardsEvents`) is not
among them: it only arrives for a previously issued `getMessages()` call. -/
inductive TimelineOp
  | fetchTick (scrollbarActivated : Bool)
  | slider (position gap : Nat) (scrollbarVisible : Bool)
  | clear

/-- One spontaneous step; the second component records whether a history
fetch was issued. -/
def timelineStep (s : TimelineState) (op : TimelineOp) : TimelineState × Bool :=
  match op with
  | TimelineOp.fetchTick act => fetchHistory s act
  | TimelineOp.slider pos gap vis => sliderMoved s pos gap vis
  | TimelineOp.clear => (clearTimeline s, false)

/-- Run a sequence of spontaneous operations; the second component records
whether any of them issued a history fetch. -/
def timelineRun (s : TimelineState) : List TimelineOp → TimelineState × Bool
  | [] => (s, false)
  | op :: ops =>
    let r := timelineStep s op
    let rest := timelineRun r.1 ops
    (rest.1, r.2 || rest.2)

/-! ## Outbound group session and encryption

`OutboundGroupSessionData` and the existing-session branch of
`TimelineView::prepareEncryptedMessage` (TimelineView.cpp:1315-1353).
`olm::encrypt_group_message` lives in `src/Olm.cpp`, which is not part of the
sources; it is modelled from the spec below. -/

/-- `OutboundGroupSessionData`: persisted outbound-session state. -/
structure OutboundGroupSessionData where
  session_id : String
  session_key : String
  message_index : Nat
  deriving DecidableEq, Repr

/-- The outbound-session column of the session store, keyed by room id. -/
def OutboundStore := List (String × OutboundGroupSessionData)

/-- Store lookup by room id. -/
def lookupOutbound (store : OutboundStore) (room_id : String) :
    Option OutboundGroupSessionData :=
  (store.find? (fun p => p.1 == room_id)).map (fun p => p.2)

/-- `cache::client()->outboundMegolmSessionExists`. -/
def outboundMegolmSessionExists (store : OutboundStore) (room_id : String) : Bool :=
  (lookupOutbound store room_id).isSome

/-- `cache::client()->saveOutboundMegolmSession` (insert-or-overwrite by
room id). -/
def saveOutboundMegolmSession (store : OutboundStore) (room_id : String)
    (data : OutboundGroupSessionData) : OutboundStore :=
  (room_id, data) :: store.filter (fun p => !(p.1 == room_id))

/-- A megolm ciphertext together with the ratchet index it was produced at. -/
structure MegolmCiphertext where
  ciphertext : String
  message_index : Nat
  deriving DecidableEq, Repr

/-- Modelled from the spec: `olm::encrypt_group_message` (src/Olm.cpp, absent
from the sources).  Spec §4.3 intends "encrypt with it, increment the message
index", but §9 records the reference behavior: "The outbound ratchet index
increment is marked as unimplemented in the reference behavior (fixed at its
initial value across sends)", matching the session saved at
TimelineView.cpp:1351 with `message_index = 0; // TODO Update me` and never
updated.  Accordingly the modelled encryption stamps the ciphertext with the
stored message index and leaves the store unchanged. -/
def encrypt_group_message (store : OutboundStore) (room_id : String)
    (plaintext : String) : OutboundStore × Option MegolmCiphertext :=
  match lookupOutbound store room_id with
  | some data =>
      (store, some { ciphertext := plaintext ++ "|" ++ data.session_key
                     message_index := data.message_index })
  | none => (store, none)

/-! ## Run-once completion barrier (StateKeeper)

`StateKeeper` is declared in `timeline/TimelineView.h`, absent from the
sources; modelled from the spec below.  Its callback — the body at
TimelineView.cpp:1358-1379, which encrypts the queued plaintext and hands the
ciphertext to the transport — is represented by the `barrierFire` /
`transmitCiphertext` events of the trace. -/

/-- The observable events of a key-distribution round: a per-user branch
completing, the barrier firing, and the pending ciphertext being handed to
the transport. -/
inductive DistEvent
  | branchDone (branch : Nat)
  | barrierFire
  | transmitCiphertext
  deriving DecidableEq, Repr

/-- Modelled from the spec: the `StateKeeper` run-once completion barrier
("a join barrier over N independent asynchronous completions", spec §4.3
step 7).  `outstanding` is the list of branches still holding a reference;
completing branch `b` releases its reference, and the barrier fires exactly
when the last reference is released. -/
def keeperRelease (outstanding : List Nat) (b : Nat) : List Nat × Bool :=
  let rest := outstanding.erase b
  (rest, rest.isEmpty)

/-- The event trace of a distribution round whose asynchronous per-user
branches complete in the given order: each completion releases the keeper
reference it holds, and when the barrier fires the keeper's callback
transmits the pending ciphertext (TimelineView.cpp:1358-1379). -/
def runDistribution (outstanding : List Nat) : List Nat → List DistEvent
  | [] => []
  | b :: rest =>
    let r := keeperRelease outstanding b
    if r.2 then
      DistEvent.branchDone b :: DistEvent.barrierFire ::
        DistEvent.transmitCiphertext :: runDistribution r.1 rest
    else
      DistEvent.branchDone b :: runDistribution r.1 rest

/-! ## Session-establishment operation order

The no-outbound-session branch of `TimelineView::prepareEncryptedMessage`
(TimelineView.cpp:1333-1487) as the sequence of operations it performs:
create the session, build the `m.room_key` payload, persist the session
(`saveOutboundMegolmSession`, line 1352), fetch the room members, create the
run-once keeper, issue the bulk device-key query, and — in the asynchronous
continuations — one key claim and one to-device delivery per member, after
which the keeper fires and the callback transmits the ciphertext. -/

/-- The operations of the session-establishment path, in program order. -/
inductive PrepOp
  | checkOutboundExists
  | initOutboundSession
  | buildMegolmPayload
  | saveOutboundSession
  | fetchMembers
  | createKeeper
  | queryKeys
  | claimKeysReq (user : String)
  | sendToDevice (user : String)
  | barrierFire
  | transmitCiphertext
  deriving DecidableEq, Repr

/-- The operation trace of the no-session branch of
`prepareEncryptedMessage` for the given room members, with the asynchronous
per-user branches shown completing after the query; the keeper fires after
the last branch releases it, and only then is the pending ciphertext
transmitted. -/
def prepareEncryptedMessageTrace (members : List String) : List PrepOp :=
  [PrepOp.checkOutboundExists, PrepOp.initOutboundSession,
   PrepOp.buildMegolmPayload, PrepOp.saveOutboundSession,
   PrepOp.fetchMembers, PrepOp.createKeeper, PrepOp.queryKeys]
  ++ members.map PrepOp.claimKeysReq
  ++ members.map PrepOp.sendToDevice
  ++ [PrepOp.barrierFire, PrepOp.transmitCiphertext]

/-- Position of the first occurrence of an operation in a trace (the trace
length when absent). -/
def posOf (t : List PrepOp) (op : PrepOp) : Nat :=
  t.findIdx (fun x => x == op)

/-- The property claimed of the establishment path: persistence of the new
outbound session is gated by the run-once barrier and never happens before
key distribution has been prepared — i.e. the barrier fires, and the key
query is issued, strictly before the session is saved. -/
def persistenceGatedByBarrier (t : List PrepOp) : Prop :=
  posOf t PrepOp.barrierFire < posOf t PrepOp.saveOutboundSession ∧
  posOf t PrepOp.queryKeys < posOf t PrepOp.saveOutboundSession

/-! ## Device-key verification during key distribution

The per-device loop of the `query_keys` callback
(TimelineView.cpp:1397-1486): devices with malformed published keys are
skipped, the identity-key signature is verified — returning false or
throwing skips the device — and each accepted device contributes a wrapped
`m.room_key` event and its public keys. -/

/-- `DevicePublicKeys`. -/
structure DevicePublicKeys where
  ed25519 : String
  curve25519 : String
  deriving DecidableEq, Repr

/-- One entry of the device-key query response for one user
(`mtx::crypto::DeviceKeys`), reduced to the fields the loop reads. -/
structure DeviceKeysPayload where
  user_id : String
  device_id : String
  keys : List (String × String)
  deriving DecidableEq, Repr

/-- Key lookup in a device's published key map (`device_keys.find`). -/
def findKey (keys : List (String × String)) (k : String) : Option String :=
  (keys.find? (fun p => p.1 == k)).map (fun p => p.2)

/-- `mtx::crypto::verify_identity_signature`, abstracted: `Except.error`
stands for a thrown `json::exception` or `mtx::crypto::olm_exception`, both
of which the loop catches and treats as a skip. -/
def VerifyOracle := DeviceKeysPayload → Except String Bool

/-- The per-device loop of the `query_keys` callback for one user: build
`room_key_msgs` (device id → wrapped room-key event) and `deviceKeys`
(device id → verified public keys).  `createRoomKey` abstracts
`olm::client()->create_room_key_event(user_id, ed25519_key, megolm_payload)`.
A device with missing curve25519/ed25519 keys, a failed signature
verification, or a verification exception is skipped (`continue`); the loop
never aborts. -/
def processDevices (verify : VerifyOracle) (createRoomKey : String → String → String) :
    List DeviceKeysPayload →
    List (String × String) × List (String × DevicePublicKeys)
  | [] => ([], [])
  | dev :: rest =>
    let curveKey := "curve25519:" ++ dev.device_id
    let edKey := "ed25519:" ++ dev.device_id
    match findKey dev.keys curveKey, findKey dev.keys edKey with
    | some curve, some ed =>
      let pks : DevicePublicKeys := { ed25519 := ed, curve25519 := curve }
      (match verify dev with
       | Except.ok true =>
         let room_key := createRoomKey dev.user_id pks.ed25519
         let r := processDevices verify createRoomKey rest
         ((dev.device_id, room_key) :: r.1, (dev.device_id, pks) :: r.2)
       | _ => processDevices verify createRoomKey rest)
    | _, _ => processDevices verify createRoomKey rest

/-- A device is rejected by the loop: its published keys are malformed
(missing curve25519 or ed25519 entry) or its identity-key signature fails to
verify (returns false or throws). -/
def deviceRejected (verify : VerifyOracle) (dev : DeviceKeysPayload) : Prop :=
  findKey dev.keys ("curve25519:" ++ dev.device_id) = none ∨
  findKey dev.keys ("ed25519:" ++ dev.device_id) = none ∨
  verify dev ≠ Except.ok true

/-! ## Helper lemmas -/

theorem lookupW_updateW_self (ws : List (Nat × Widget)) (i : Nat)
    (f : Widget → Widget) :
    lookupW (updateW ws i f) i = (lookupW ws i).map f := by
  induction ws with
  | nil => rfl
  | cons p rest ih =>
    rcases p with ⟨a, b⟩
    by_cases h : a = i
    · subst h
      simp [lookupW, updateW, List.find?_cons_of_pos]
    · have hb : (a == i) = false := beq_eq_false_iff_ne.mpr h
      simp only [updateW, List.map_cons, hb, if_neg, Bool.false_eq_true,
        not_false_iff, lookupW] at ih ⊢
      rw [List.find?_cons_of_neg _ (by simp [hb]), List.find?_cons_of_neg _ (by simp [hb])]
      exact ih

theorem lookupW_updateW_ne (ws : List (Nat × Widget)) (i j : Nat)
    (f : Widget → Widget) (h : j ≠ i) :
    lookupW (updateW ws j f) i = lookupW ws i := by
  induction ws with
  | nil => rfl
  | cons p rest ih =>
    rcases p with ⟨a, b⟩
    by_cases ha : a = j
    · subst ha
      have hbj : (a == a) = true := beq_self_eq_true a
      have hbne : (a == i) = false := beq_eq_false_iff_ne.mpr h
      simp only [updateW, List.map_cons, hbj, if_pos, lookupW] at ih ⊢
      rw [List.find?_cons_of_neg _ (by simp [hbne]), List.find?_cons_of_neg _ (by simp [hbne])]
      exact ih
    · have hbj : (a == j) = false := beq_eq_false_iff_ne.mpr ha
      by_cases hi : a = i
      · subst hi
        simp only [updateW, List.map_cons, hbj, if_neg, Bool.false_eq_true,
          not_false_iff, lookupW]
        rw [List.find?_cons_of_pos _ (by simp), List.find?_cons_of_pos _ (by simp)]
      · have hbi : (a == i) = false := beq_eq_false_iff_ne.mpr hi
        simp only [updateW, List.map_cons, hbj, if_neg, Bool.false_eq_true,
          not_false_iff, lookupW] at ih ⊢
        rw [List.find?_cons_of_neg _ (by simp [hbi]), List.find?_cons_of_neg _ (by simp [hbi])]
        exact ih

theorem updateW_updateW (ws : List (Nat × Widget)) (i : Nat)
    (f g : Widget → Widget) :
    updateW (updateW ws i f) i g = updateW ws i (fun x => g (f x)) := by
  induction ws with
  | nil => rfl
  | cons p rest ih =>
    rcases p with ⟨a, b⟩
    by_cases h : a = i
    · subst h
      simp only [updateW, List.map_cons, beq_self_eq_true, if_pos] at ih ⊢
      rw [ih]
    · have hb : (a == i) = false := beq_eq_false_iff_ne.mpr h
      simp only [updateW, List.map_cons, hb, if_neg, Bool.false_eq_true, not_false_iff] at ih ⊢
      rw [ih]

theorem updateW_length (ws : List (Nat × Widget)) (i : Nat) (f : Widget → Widget) :
    (updateW ws i f).length = ws.length := by
  simp [updateW]

theorem sendNext_fields (pm : List PendingMessage) (ps : List PendingMessage)
    (ws : List (Nat × Widget)) (ei : List (String × Nat)) :
    (sendNextPendingMessage ⟨pm, ps, ws, ei⟩).1.pending_msgs = pm ∧
    (sendNextPendingMessage ⟨pm, ps, ws, ei⟩).1.pending_sent_msgs = ps ∧
    (sendNextPendingMessage ⟨pm, ps, ws, ei⟩).1.eventIds = ei ∧
    (sendNextPendingMessage ⟨pm, ps, ws, ei⟩).2 = pm.head?.map (fun m => m.txn_id) := by
  cases pm with
  | nil => exact ⟨rfl, rfl, rfl, rfl⟩
  | cons m rest =>
    rcases m with ⟨mt, me, menc, mw⟩
    cases mw <;> exact ⟨rfl, rfl, rfl, rfl⟩

theorem sendNext_pending_msgs (s : QueueState) :
    (sendNextPendingMessage s).1.pending_msgs = s.pending_msgs := by
  rcases s with ⟨pm, ps, ws, ei⟩
  exact (sendNext_fields pm ps ws ei).1

theorem updatePendingMessage_pending (s : QueueState) (T E : String) :
    (updatePendingMessage s T E).1.pending_msgs = s.pending_msgs ∨
    (updatePendingMessage s T E).1.pending_msgs = s.pending_msgs.tail := by
  rcases s with ⟨pm, ps, ws, ei⟩
  cases pm with
  | nil =>
    left
    simpa using (sendNext_fields [] ps ws ei).1
  | cons m rest =>
    rcases m with ⟨mt, me, menc, mw⟩
    by_cases h : (mt == T) = true
    · right
      cases mw with
      | none =>
        simp only [updatePendingMessage, h, if_true]
        simpa using (sendNext_fields rest ps ws ei).1
      | some w =>
        simp only [updatePendingMessage, h, if_true]
        cases hl : lookupW (updateW ws w (setEventIdW E)) w with
        | none =>
          simp only [hl]
          simpa using (sendNext_fields rest ps (updateW ws w (setEventIdW E))
            (insertEid ei E w)).1
        | some wd =>
          simp only [hl]
          by_cases hr : wd.received
          · simp only [hr, Bool.not_true, if_neg, Bool.false_eq_true, not_false_iff]
            simpa using (sendNext_fields rest ps (updateW ws w (setEventIdW E))
              (insertEid ei E w)).1
          · have hr' : wd.received = false := by
              cases hrr : wd.received
              · rfl
              · exact absurd hrr hr
            simp only [hr', Bool.not_false, if_pos]
            simpa using (sendNext_fields rest (ps ++ [⟨mt, E, menc, some w⟩])
              (updateW (updateW ws w (setEventIdW E)) w markReceivedW)
              (insertEid ei E w)).1
    · left
      have h' : (mt == T) = false := by
        cases hx : mt == T
        · rfl
        · exact absurd hx h
      simp only [updatePendingMessage, h', Bool.false_eq_true, if_neg, not_false_iff]
      simpa using (sendNext_fields (⟨mt, me, menc, mw⟩ :: rest) ps ws ei).1

theorem syncMarkReceived_fields (s : QueueState) (txn : String) :
    (syncMarkReceived s txn).pending_msgs = s.pending_msgs ∧
    (syncMarkReceived s txn).pending_sent_msgs = s.pending_sent_msgs ∧
    (syncMarkReceived s txn).eventIds = s.eventIds := by
  rcases s with ⟨pm, ps, ws, ei⟩
  unfold syncMarkReceived
  cases hf : pm.find? (fun m => m.txn_id == txn) with
  | none => exact ⟨rfl, rfl, rfl⟩
  | some m =>
    rcases m with ⟨mt, me, menc, mw⟩
    cases mw with
    | none => exact ⟨rfl, rfl, rfl⟩
    | some w => exact ⟨rfl, rfl, rfl⟩

theorem removeSentLoop_pending (s : QueueState) (txn : String) :
    (removeSentLoop s txn).1.pending_msgs = s.pending_msgs ∧
    (removeSentLoop s txn).1.eventIds = s.eventIds := by
  rcases s with ⟨pm, ps, ws, ei⟩
  unfold removeSentLoop
  cases hr : (removeSentAux txn [] ps false).2
  · simp [hr]
  · simp only [hr, if_true]
    exact ⟨(sendNext_fields pm (removeSentAux txn [] ps false).1 ws ei).1,
           (sendNext_fields pm (removeSentAux txn [] ps false).1 ws ei).2.2.1⟩

theorem removePendingMessage_pending (s : QueueState) (txn : String) :
    (removePendingMessage s txn).1.pending_msgs = s.pending_msgs := by
  unfold removePendingMessage
  by_cases h : (txn == "") = true
  · simp only [h, if_true]
  · have h' : (txn == "") = false := by
      cases hx : txn == ""
      · rfl
      · exact absurd hx h
    simp only [h', Bool.false_eq_true, if_neg, not_false_iff]
    rw [(syncMarkReceived_fields _ _).1, (removeSentLoop_pending s txn).1]

theorem handleNewUserMessage_pending (s : QueueState) (m : PendingMessage) :
    (handleNewUserMessage s m).1.pending_msgs = s.pending_msgs ++ [m] := by
  rcases s with ⟨pm, ps, ws, ei⟩
  unfold handleNewUserMessage
  cases hc : ((pm ++ [m]).length == 1 && ps.isEmpty)
  · simp only [hc, Bool.false_eq_true, if_neg, not_false_iff]
  · simp only [hc, if_true]
    simpa using (sendNext_fields (pm ++ [m]) ps ws ei).1

theorem updateW_sent_id (ws : List (Nat × Widget)) (w : Nat)
    (h : ∀ p ∈ ws, p.1 = w → p.2.sent = true) :
    updateW ws w markSentW = ws := by
  induction ws with
  | nil => rfl
  | cons p rest ih =>
    rcases p with ⟨a, b⟩
    have ih' := ih (fun q hq hq1 => h q (List.mem_cons_of_mem _ hq) hq1)
    by_cases ha : a = w
    · subst ha
      have hb : b.sent = true := h (a, b) (List.mem_cons_self _ _) rfl
      have hmb : markSentW b = b := by
        rcases b with ⟨bs, br, bc, be⟩
        simp only [markSentW]
        simp only at hb
        rw [hb]
      simp only [updateW, List.map_cons, beq_self_eq_true, if_pos, hmb] at ih' ⊢
      rw [ih']
    · have hb : (a == w) = false := beq_eq_false_iff_ne.mpr ha
      simp only [updateW, List.map_cons, hb, Bool.false_eq_true, if_neg,
        not_false_iff] at ih' ⊢
      rw [ih']

/-! ## Claim theorems -/

/-- C8: On a transmit failure the state is left untouched, so the failed
element remains at the head of the per-room FIFO; retransmission is scheduled
as a `sendNextPendingMessage` after the fixed 2000 ms delay and thus
retransmits that same head; the transport is only ever handed the queue head,
so later elements stay blocked behind it; and no queue operation ever
reorders `pending_msgs_` — each either leaves it unchanged, appends at the
back, or pops the front. -/
theorem failed_send_retry_fifo :
    (∀ (s : QueueState) (txn : String),
        handleFailedMessage s txn = (s, Scheduled.sendNextAfter 2000)) ∧
    (∀ s : QueueState,
        (sendNextPendingMessage s).2 = s.pending_msgs.head?.map (fun m => m.txn_id)) ∧
    (∀ (s : QueueState) (txn : String),
        (sendNextPendingMessage (handleFailedMessage s txn).1).2
          = s.pending_msgs.head?.map (fun m => m.txn_id)) ∧
    (∀ (s : QueueState) (e : QueueEvent),
        (queueStep s e).pending_msgs = s.pending_msgs ∨
        (∃ m, (queueStep s e).pending_msgs = s.pending_msgs ++ [m]) ∨
        (queueStep s e).pending_msgs = s.pending_msgs.tail) := by
  refine ⟨fun s txn => rfl, ?_, ?_, ?_⟩
  · intro s
    rcases s with ⟨pm, ps, ws, ei⟩
    exact (sendNext_fields pm ps ws ei).2.2.2
  · intro s txn
    rcases s with ⟨pm, ps, ws, ei⟩
    exact (sendNext_fields pm ps ws ei).2.2.2
  · intro s e
    cases e with
    | newMessage m =>
      exact Or.inr (Or.inl ⟨m, handleNewUserMessage_pending s m⟩)
    | serverAck txn eid =>
      rcases updatePendingMessage_pending s txn eid with h | h
      · exact Or.inl h
      · exact Or.inr (Or.inr h)
    | syncEcho txn =>
      exact Or.inl (removePendingMessage_pending s txn)
    | transmitFailed txn =>
      exact Or.inl rfl

/-- C10: An acknowledgment whose transaction id does not match the head of
the pending queue (this also covers the empty queue) leaves the queue
contents, the acknowledged-message list, and the widget registry unchanged;
the whole call is exactly the trailing `sendNextPendingMessage()`, i.e. the
only effect is that transmission of the next pending message (the head) is
still triggered — and since a message only becomes head through a
`sendNextPendingMessage` call that marks it sent, its widget is already
marked sent, so the rendered widgets are unchanged too (last conjunct). -/
theorem updatePendingMessage_mismatch_frame
    (s : QueueState) (txn event_id : String)
    (h : ∀ m, s.pending_msgs.head? = some m → (m.txn_id == txn) = false) :
    updatePendingMessage s txn event_id = sendNextPendingMessage s ∧
    (updatePendingMessage s txn event_id).1.pending_msgs = s.pending_msgs ∧
    (updatePendingMessage s txn event_id).1.pending_sent_msgs = s.pending_sent_msgs ∧
    (updatePendingMessage s txn event_id).1.eventIds = s.eventIds ∧
    (updatePendingMessage s txn event_id).2
      = s.pending_msgs.head?.map (fun m => m.txn_id) ∧
    ((∀ m w, s.pending_msgs.head? = some m → m.widget = some w →
        ∀ p ∈ s.widgets, p.1 = w → p.2.sent = true) →
      (updatePendingMessage s txn event_id).1 = s) := by
  rcases s with ⟨pm, ps, ws, ei⟩
  cases pm with
  | nil =>
    refine ⟨rfl, ?_, ?_, ?_, ?_, ?_⟩
    · simpa using (sendNext_fields [] ps ws ei).1
    · simpa using (sendNext_fields [] ps ws ei).2.1
    · simpa using (sendNext_fields [] ps ws ei).2.2.1
    · simpa using (sendNext_fields [] ps ws ei).2.2.2
    · intro _
      rfl
  | cons m rest =>
    rcases m with ⟨mt, me, menc, mw⟩
    have h' : (mt == txn) = false := h ⟨mt, me, menc, mw⟩ rfl
    have heq : updatePendingMessage ⟨⟨mt, me, menc, mw⟩ :: rest, ps, ws, ei⟩ txn event_id
        = sendNextPendingMessage ⟨⟨mt, me, menc, mw⟩ :: rest, ps, ws, ei⟩ := by
      simp only [updatePendingMessage, h', Bool.false_eq_true, if_neg, not_false_iff]
    refine ⟨heq, ?_, ?_, ?_, ?_, ?_⟩
    · rw [heq]
      exact (sendNext_fields _ ps ws ei).1
    · rw [heq]
      exact (sendNext_fields _ ps ws ei).2.1
    · rw [heq]
      exact (sendNext_fields _ ps ws ei).2.2.1
    · rw [heq]
      exact (sendNext_fields _ ps ws ei).2.2.2
    · intro hsent
      rw [heq]
      cases mw with
      | none => rfl
      | some w =>
        have hws : updateW ws w markSentW = ws :=
          updateW_sent_id ws w (hsent ⟨mt, me, menc, some w⟩ w rfl rfl)
        simp only [sendNextPendingMessage, hws]

/-- Witness for C10 at a concrete state: queue head `t2`, acknowledgment for
`t1`. -/
theorem updatePendingMessage_mismatch_frame_witness :
    (updatePendingMessage
        ⟨[⟨"t2", "", false, some 0⟩], [], [(0, ⟨true, false, 0, none⟩)], []⟩
        "t1" "$e1").1
      = ⟨[⟨"t2", "", false, some 0⟩], [], [(0, ⟨true, false, 0, none⟩)], []⟩ := by
  have h := updatePendingMessage_mismatch_frame
    ⟨[⟨"t2", "", false, some 0⟩], [], [(0, ⟨true, false, 0, none⟩)], []⟩
    "t1" "$e1" (by intro m hm; cases hm; decide)
  refine h.2.2.2.2.2 ?_
  intro m w hm hw p hp hp1
  cases hm
  cases hw
  simp only [List.mem_singleton] at hp
  rw [hp]

/-- C5 counterexample: a decryptable payload whose plaintext is not valid
JSON.  The inbound session exists, retrieval and group decryption succeed,
but the re-parse of the plaintext (`json::parse` at TimelineView.cpp:351,
outside every try/catch of the function) throws, and the exception escapes
the resolver's boundary instead of becoming a typed result — refuting, at
this concrete input, the claim that no exception escapes the resolver. -/
theorem parse_exception_escapes_resolver :
    parseEncryptedEvent
      { inboundMegolmSessionExists := fun _ => Except.ok true
        getInboundMegolmSession := fun _ => Except.ok 0 }
      { decrypt_group_message := fun _ _ => Except.ok "not a json document" }
      (fun _ _ => Except.error "json parse error at byte 1")
      "!room:example.com"
      { event_id := "$e1", sender := "@bob:example.com", origin_server_ts := 5
        content := { session_id := "sid", sender_key := "skey", ciphertext := "ct" } }
      = Except.error "json parse error at byte 1" := rfl

/-- C5 amended: the decryption resolver.  The session-existence check is
made at exactly the (room id, session id, sender key) triple of the event;
when it reports no session the resolver returns the typed "no session"
result carrying the placeholder plaintext; a storage failure during the
existence check or the session retrieval, and a cryptographic failure during
decryption, are each caught and converted into the corresponding typed
failure result carrying a diagnostic reason.  But the re-parse of the
decrypted plaintext runs outside every try/catch, so when it fails the
exception propagates past the resolver's boundary unchanged (last
conjunct): only the lookup/decrypt failure paths are exception-free. -/
theorem parseEncryptedEvent_typed_results
    (cache : CacheClient) (olm : OlmClient)
    (parse : String → EncryptedEvent → Except String (List TimelineEvent))
    (room_id : String) (e : EncryptedEvent) :
    (cache.inboundMegolmSessionExists
        ⟨room_id, e.content.session_id, e.content.sender_key⟩ = Except.ok false →
      parseEncryptedEvent cache olm parse room_id e =
        Except.ok
          { event := dummyEvent e "-- Encrypted Event (No keys found for decryption) --"
            isDecrypted := false }) ∧
    (∀ d, cache.inboundMegolmSessionExists
        ⟨room_id, e.content.session_id, e.content.sender_key⟩ = Except.error d →
      parseEncryptedEvent cache olm parse room_id e =
        Except.ok
          { event := dummyEvent e "-- Decryption Error (failed to communicate with DB) --"
            isDecrypted := false }) ∧
    (∀ d, cache.inboundMegolmSessionExists
        ⟨room_id, e.content.session_id, e.content.sender_key⟩ = Except.ok true →
      cache.getInboundMegolmSession
        ⟨room_id, e.content.session_id, e.content.sender_key⟩ = Except.error d →
      parseEncryptedEvent cache olm parse room_id e =
        Except.ok
          { event := dummyEvent e "-- Decryption Error (failed to retrieve megolm keys from db) --"
            isDecrypted := false }) ∧
    (∀ session reason, cache.inboundMegolmSessionExists
        ⟨room_id, e.content.session_id, e.content.sender_key⟩ = Except.ok true →
      cache.getInboundMegolmSession
        ⟨room_id, e.content.session_id, e.content.sender_key⟩ = Except.ok session →
      olm.decrypt_group_message session e.content.ciphertext = Except.error reason →
      parseEncryptedEvent cache olm parse room_id e =
        Except.ok
          { event := dummyEvent e ("-- Decryption Error (" ++ reason ++ ") --")
            isDecrypted := false }) ∧
    (∀ session msg_str exc, cache.inboundMegolmSessionExists
        ⟨room_id, e.content.session_id, e.content.sender_key⟩ = Except.ok true →
      cache.getInboundMegolmSession
        ⟨room_id, e.content.session_id, e.content.sender_key⟩ = Except.ok session →
      olm.decrypt_group_message session e.content.ciphertext = Except.ok msg_str →
      parse msg_str e = Except.error exc →
      parseEncryptedEvent cache olm parse room_id e = Except.error exc) := by
  refine ⟨?_, ?_, ?_, ?_, ?_⟩
  · intro h
    simp only [parseEncryptedEvent, h]
  · intro d h
    simp only [parseEncryptedEvent, h]
  · intro d h1 h2
    simp only [parseEncryptedEvent, h1, h2]
  · intro session reason h1 h2 h3
    simp only [parseEncryptedEvent, h1, h2, h3]
  · intro session msg_str exc h1 h2 h3 h4
    simp only [parseEncryptedEvent, h1, h2, h3, h4]

/-- Witness for C5: a store with no inbound session for the event's triple
yields the typed "no session" placeholder result. -/
theorem parseEncryptedEvent_typed_results_witness :
    parseEncryptedEvent
      { inboundMegolmSessionExists := fun _ => Except.ok false
        getInboundMegolmSession := fun _ => Except.error "unreachable" }
      { decrypt_group_message := fun _ _ => Except.error "unreachable" }
      (fun _ _ => Except.ok [])
      "!room:example.com"
      { event_id := "$e1", sender := "@bob:example.com", origin_server_ts := 5
        content := { session_id := "sid", sender_key := "skey", ciphertext := "ct" } }
      = Except.ok
          { event := dummyEvent
              { event_id := "$e1", sender := "@bob:example.com", origin_server_ts := 5
                content := { session_id := "sid", sender_key := "skey", ciphertext := "ct" } }
              "-- Encrypted Event (No keys found for decryption) --"
            isDecrypted := false } := by
  exact (parseEncryptedEvent_typed_results _ _ _ _ _).1 rfl

/-- C9: the preview-candidate selectors fall back rather than fail:
`findFirstViewableEvent` returns the first event of a non-empty batch
containing no room-message event, `findLastViewableEvent` returns the last
event of a non-empty batch containing no message-or-encrypted event, both
return an event on every non-empty batch, and at their call sites
(`addEvents`, `addBackwardsEvents`) they are only invoked behind non-empty
guards, so the fallback access never hits an empty sequence. -/
theorem viewable_event_fallback_safe
    (events : List TimelineEvent) (s : TimelineState) (t : SyncTimeline)
    (m : Messages) (hne : events ≠ []) :
    ((∀ ev ∈ events, ev.kind ≠ EventType.RoomMessage) →
        findFirstViewableEvent events = events.head?) ∧
    ((∀ ev ∈ events, ev.kind ≠ EventType.RoomMessage ∧
        ev.kind ≠ EventType.RoomEncrypted) →
        findLastViewableEvent events = events.getLast?) ∧
    (findFirstViewableEvent events).isSome = true ∧
    (findLastViewableEvent events).isSome = true ∧
    (s.bottomMessages ++ t.events ≠ [] → (addEvents s t).2.isSome = true) ∧
    (isStartOfTimeline m = false → s.topMessages ++ m.chunk ≠ [] →
        s.scrollLayoutCount = 0 → (addBackwardsEvents s m).2.isSome = true) := by
  have hfirst : ∀ (l : List TimelineEvent), l ≠ [] →
      (findFirstViewableEvent l).isSome = true := by
    intro l hl
    unfold findFirstViewableEvent
    cases hf : l.find? (fun e => e.kind == EventType.RoomMessage) with
    | some ev => rfl
    | none =>
      cases l with
      | nil => exact absurd rfl hl
      | cons a as => rfl
  have hlast : ∀ (l : List TimelineEvent), l ≠ [] →
      (findLastViewableEvent l).isSome = true := by
    intro l hl
    unfold findLastViewableEvent
    cases hf : l.reverse.find?
        (fun e => e.kind == EventType.RoomMessage ||
          e.kind == EventType.RoomEncrypted) with
    | some ev => rfl
    | none =>
      rw [List.getLast?_eq_getLast_of_ne_nil hl]
      rfl
  refine ⟨?_, ?_, hfirst events hne, hlast events hne, ?_, ?_⟩
  · intro h
    have hf : events.find? (fun e => e.kind == EventType.RoomMessage) = none :=
      List.find?_eq_none.mpr (fun x hx => by simp [h x hx])
    simp only [findFirstViewableEvent, hf]
  · intro h
    have hf : events.reverse.find?
        (fun e => e.kind == EventType.RoomMessage ||
          e.kind == EventType.RoomEncrypted) = none := by
      refine List.find?_eq_none.mpr (fun x hx => ?_)
      have hx' := List.mem_reverse.mp hx
      simp [(h x hx').1, (h x hx').2]
    simp only [findLastViewableEvent, hf]
  · intro hb
    have hbe : (s.bottomMessages ++ t.events).isEmpty = false := by
      cases hx : (s.bottomMessages ++ t.events).isEmpty
      · rfl
      · exact absurd (List.isEmpty_iff.mp hx) hb
    rcases s with ⟨fin, pag, init, pbt, top, bot, rt, rb, slc, vis⟩
    simp only [addEvents] at hbe ⊢
    cases init
    · simp only [Bool.false_eq_true, if_neg, not_false_iff] at hbe ⊢
      simp only [hbe, Bool.not_false, if_pos]
      exact hlast _ hb
    · simp only [if_true] at hbe ⊢
      simp only [hbe, Bool.not_false, if_pos]
      exact hlast _ hb
  · intro hstart hne2 hslc
    rcases s with ⟨fin, pag, init, pbt, top, bot, rt, rb, slc, vis⟩
    simp only at hslc
    subst hslc
    have hbe : (top ++ m.chunk).isEmpty = false := by
      cases hx : (top ++ m.chunk).isEmpty
      · rfl
      · exact absurd (List.isEmpty_iff.mp hx) hne2
    simp only [addBackwardsEvents, hstart, Bool.false_eq_true, if_neg, not_false_iff]
    simp only [hbe, Bool.not_false, Nat.zero_eq, beq_self_eq_true, Bool.and_true, if_pos]
    exact hfirst _ hne2

/-- Witness for C9: a one-element batch with no qualifying event falls back
to its first event. -/
theorem viewable_event_fallback_safe_witness :
    findFirstViewableEvent [{ kind := EventType.Other }] =
      List.head? [{ kind := EventType.Other }] := by
  refine (viewable_event_fallback_safe [{ kind := EventType.Other }]
    {} ⟨[], ""⟩ ⟨"", "", []⟩ (by decide)).1 ?_
  intro ev hv
  simp only [List.mem_singleton] at hv
  rw [hv]
  decide

/-- C2 (evaluation of the defect): after `prepareEncryptedMessage` saves a
fresh outbound session with `message_index = 0` (TimelineView.cpp:1351,
"TODO Update me"), two successive encrypted sends under that session produce
two distinct ciphertexts carrying the same message index 0 — the stored
ratchet index is never incremented, contradicting the claimed strict
increase and no-reuse. -/
theorem message_index_fixed_across_sends :
    (encrypt_group_message
        (saveOutboundMegolmSession [] "!room:example.com"
          { session_id := "sid", session_key := "skey", message_index := 0 })
        "!room:example.com" "first message").2
      = some { ciphertext := "first message|skey", message_index := 0 } ∧
    (encrypt_group_message
        (encrypt_group_message
          (saveOutboundMegolmSession [] "!room:example.com"
            { session_id := "sid", session_key := "skey", message_index := 0 })
          "!room:example.com" "first message").1
        "!room:example.com" "second message").2
      = some { ciphertext := "second message|skey", message_index := 0 } ∧
    ("first message|skey" : String) ≠ "second message|skey" := by
  refine ⟨rfl, rfl, by decide⟩

theorem runDistribution_cons (k : List Nat) (b : Nat) (rest : List Nat) :
    runDistribution k (b :: rest) =
      if (k.erase b).isEmpty then
        DistEvent.branchDone b :: DistEvent.barrierFire ::
          DistEvent.transmitCiphertext :: runDistribution (k.erase b) rest
      else DistEvent.branchDone b :: runDistribution (k.erase b) rest := rfl

/-- C3: the run-once completion barrier.  For a distribution round with a
non-empty set of asynchronous per-user branches, whatever order the branches
complete in (any permutation), the produced event trace is exactly all the
branch completions followed by one barrier firing followed by one ciphertext
transmission: the barrier fires exactly once, and the pending ciphertext is
transmitted only after it fires, never before. -/
theorem barrier_fires_once_transmit_after
    (branches order : List Nat)
    (hperm : order.Perm branches) (hne : branches ≠ []) :
    runDistribution branches order =
      order.map DistEvent.branchDone ++
        [DistEvent.barrierFire, DistEvent.transmitCiphertext] := by
  induction order generalizing branches with
  | nil =>
    exact absurd (hperm.symm.eq_nil) hne
  | cons b rest ih =>
    have hb : b ∈ branches := hperm.mem_iff.mp (List.mem_cons_self b rest)
    have hperm' : rest.Perm (branches.erase b) :=
      (hperm.trans (List.perm_cons_erase hb)).cons_inv
    cases rest with
    | nil =>
      have herase : branches.erase b = [] := hperm'.symm.eq_nil
      rw [runDistribution_cons, herase]
      simp [runDistribution]
    | cons r rs =>
      have herase : branches.erase b ≠ [] := by
        intro hx
        rw [hx] at hperm'
        exact absurd hperm'.eq_nil (by simp)
      have hie : (branches.erase b).isEmpty = false := by
        cases hx : (branches.erase b).isEmpty
        · rfl
        · exact absurd (List.isEmpty_iff.mp hx) herase
      have ihr := ih (branches.erase b) hperm' herase
      rw [runDistribution_cons, hie, ihr]
      simp

/-- Witness for C3 with two branches completing in reversed order. -/
theorem barrier_fires_once_transmit_after_witness :
    runDistribution [1, 2] [2, 1] =
      [DistEvent.branchDone 2, DistEvent.branchDone 1,
       DistEvent.barrierFire, DistEvent.transmitCiphertext] := by
  have h := barrier_fires_once_transmit_after [1, 2] [2, 1] (by decide) (by decide)
  simpa using h

theorem posOf_cons (a : PrepOp) (t : List PrepOp) (op : PrepOp) :
    posOf (a :: t) op = if a = op then 0 else posOf t op + 1 := by
  unfold posOf
  rw [List.findIdx_cons]
  by_cases h : a = op
  · subst h
    simp
  · have hb : (a == op) = false := by simp [h]
    rw [hb]
    simp [h]

theorem posOf_append_not_mem (l1 l2 : List PrepOp) (op : PrepOp) (h : op ∉ l1) :
    posOf (l1 ++ l2) op = l1.length + posOf l2 op := by
  induction l1 with
  | nil => simp
  | cons a l1 ih =>
    have ha : a ≠ op := fun hx => h (hx ▸ List.mem_cons_self a l1)
    rw [List.cons_append, posOf_cons, if_neg ha,
      ih (fun hx => h (List.mem_cons_of_mem a hx)), List.length_cons]
    omega

/-- C4 counterexample: in the session-establishment path for a one-member
room, the outbound session is persisted neither after the barrier fires nor
after the device-key query is issued — the claimed gating of persistence by
the completion barrier is false on the code, which saves the session before
any key distribution is prepared (TimelineView.cpp:1352, before the keeper
at 1358 and the query at 1385). -/
theorem persistence_not_gated_by_barrier :
    ¬ persistenceGatedByBarrier
        (prepareEncryptedMessageTrace ["@alice:example.com"]) := by
  intro h
  rcases h with ⟨h1, _⟩
  revert h1
  decide

/-- C4 amended: during session establishment the new outbound session is
persisted immediately after creation — before the keeper is created and
before the device-key query is issued — and what the run-once completion
barrier gates is the transmission of the pending ciphertext: the one
transmission in the round happens right after the barrier fires, at the very
end of the trace. -/
theorem session_saved_before_distribution (members : List String) :
    posOf (prepareEncryptedMessageTrace members) PrepOp.saveOutboundSession = 3 ∧
    posOf (prepareEncryptedMessageTrace members) PrepOp.createKeeper = 5 ∧
    posOf (prepareEncryptedMessageTrace members) PrepOp.queryKeys = 6 ∧
    posOf (prepareEncryptedMessageTrace members) PrepOp.barrierFire
      = 7 + 2 * members.length ∧
    posOf (prepareEncryptedMessageTrace members) PrepOp.transmitCiphertext
      = 8 + 2 * members.length ∧
    (prepareEncryptedMessageTrace members).count PrepOp.transmitCiphertext = 1 ∧
    posOf (prepareEncryptedMessageTrace members) PrepOp.saveOutboundSession
      < posOf (prepareEncryptedMessageTrace members) PrepOp.barrierFire := by
  have hmap1 : PrepOp.barrierFire ∉ members.map PrepOp.claimKeysReq := by
    simp [List.mem_map]
  have hmap2 : PrepOp.barrierFire ∉ members.map PrepOp.sendToDevice := by
    simp [List.mem_map]
  have hmap3 : PrepOp.transmitCiphertext ∉ members.map PrepOp.claimKeysReq := by
    simp [List.mem_map]
  have hmap4 : PrepOp.transmitCiphertext ∉ members.map PrepOp.sendToDevice := by
    simp [List.mem_map]
  have hsave : posOf (prepareEncryptedMessageTrace members)
      PrepOp.saveOutboundSession = 3 := by
    simp [prepareEncryptedMessageTrace, posOf_cons]
  have hkeeper : posOf (prepareEncryptedMessageTrace members)
      PrepOp.createKeeper = 5 := by
    simp [prepareEncryptedMessageTrace, posOf_cons]
  have hquery : posOf (prepareEncryptedMessageTrace members)
      PrepOp.queryKeys = 6 := by
    simp [prepareEncryptedMessageTrace, posOf_cons]
  have hfire : posOf (prepareEncryptedMessageTrace members)
      PrepOp.barrierFire = 7 + 2 * members.length := by
    unfold prepareEncryptedMessageTrace
    rw [List.append_assoc, List.append_assoc]
    rw [posOf_append_not_mem _ _ _ (by decide)]
    rw [posOf_append_not_mem _ _ _ hmap1, posOf_append_not_mem _ _ _ hmap2]
    rw [posOf_cons, if_pos rfl]
    simp
    omega
  have htrans : posOf (prepareEncryptedMessageTrace members)
      PrepOp.transmitCiphertext = 8 + 2 * members.length := by
    unfold prepareEncryptedMessageTrace
    rw [List.append_assoc, List.append_assoc]
    rw [posOf_append_not_mem _ _ _ (by decide)]
    rw [posOf_append_not_mem _ _ _ hmap3, posOf_append_not_mem _ _ _ hmap4]
    rw [posOf_cons, if_neg (by decide), posOf_cons, if_pos rfl]
    simp
    omega
  have hcount : (prepareEncryptedMessageTrace members).count
      PrepOp.transmitCiphertext = 1 := by
    unfold prepareEncryptedMessageTrace
    rw [List.count_append, List.count_append, List.count_append]
    rw [List.count_eq_zero.mpr hmap3, List.count_eq_zero.mpr hmap4,
      List.count_eq_zero.mpr (by decide)]
    decide
  refine ⟨hsave, hkeeper, hquery, hfire, htrans, hcount, ?_⟩
  rw [hsave, hfire]
  omega

theorem processDevices_cons (verify : VerifyOracle)
    (ck : String → String → String) (dev : DeviceKeysPayload)
    (rest : List DeviceKeysPayload) :
    processDevices verify ck (dev :: rest) =
      match findKey dev.keys ("curve25519:" ++ dev.device_id),
            findKey dev.keys ("ed25519:" ++ dev.device_id) with
      | some curve, some ed =>
        (match verify dev with
         | Except.ok true =>
           ((dev.device_id, ck dev.user_id ed) :: (processDevices verify ck rest).1,
            (dev.device_id, ⟨ed, curve⟩) :: (processDevices verify ck rest).2)
         | _ => processDevices verify ck rest)
      | _, _ => processDevices verify ck rest := rfl

theorem processDevices_skip (verify : VerifyOracle)
    (ck : String → String → String) (dev : DeviceKeysPayload)
    (rest : List DeviceKeysPayload) (hrej : deviceRejected verify dev) :
    processDevices verify ck (dev :: rest) = processDevices verify ck rest := by
  rw [processDevices_cons]
  cases hc : findKey dev.keys ("curve25519:" ++ dev.device_id) with
  | none => rfl
  | some c =>
    cases he : findKey dev.keys ("ed25519:" ++ dev.device_id) with
    | none => rfl
    | some e =>
      rcases hrej with h | h | h
      · rw [hc] at h
        exact absurd h (by simp)
      · rw [he] at h
        exact absurd h (by simp)
      · cases hv : verify dev with
        | error msg => rfl
        | ok b =>
          cases b with
          | false => rfl
          | true => exact absurd hv h

theorem processDevices_elim (verify : VerifyOracle)
    (ck : String → String → String) (bad : DeviceKeysPayload)
    (hbad : deviceRejected verify bad) :
    ∀ (pre post : List DeviceKeysPayload),
      processDevices verify ck (pre ++ bad :: post)
        = processDevices verify ck (pre ++ post) := by
  intro pre
  induction pre with
  | nil =>
    intro post
    exact processDevices_skip verify ck bad post hbad
  | cons d pre ih =>
    intro post
    rw [List.cons_append, List.cons_append, processDevices_cons, processDevices_cons]
    cases hc : findKey d.keys ("curve25519:" ++ d.device_id) with
    | none => exact ih post
    | some c =>
      cases he : findKey d.keys ("ed25519:" ++ d.device_id) with
      | none => exact ih post
      | some e =>
        cases hv : verify d with
        | error msg => exact ih post
        | ok b =>
          cases b with
          | false => exact ih post
          | true => rw [ih post]

theorem processDevices_mem (verify : VerifyOracle)
    (ck : String → String → String) :
    ∀ (l : List DeviceKeysPayload) (dev : DeviceKeysPayload), dev ∈ l →
      ¬ deviceRejected verify dev →
      dev.device_id ∈ (processDevices verify ck l).1.map Prod.fst := by
  intro l
  induction l with
  | nil =>
    intro dev h
    cases h
  | cons d rest ih =>
    intro dev hmem hgood
    rcases List.mem_cons.mp hmem with heq | hmem'
    · subst heq
      have h1 : findKey dev.keys ("curve25519:" ++ dev.device_id) ≠ none :=
        fun hx => hgood (Or.inl hx)
      have h2 : findKey dev.keys ("ed25519:" ++ dev.device_id) ≠ none :=
        fun hx => hgood (Or.inr (Or.inl hx))
      have h3 : verify dev = Except.ok true := by
        by_contra hx
        exact hgood (Or.inr (Or.inr hx))
      obtain ⟨c, hc⟩ := Option.ne_none_iff_exists'.mp h1
      obtain ⟨e, he⟩ := Option.ne_none_iff_exists'.mp h2
      rw [processDevices_cons, hc, he, h3]
      simp
    · have ihm := ih dev hmem' hgood
      rw [processDevices_cons]
      cases hc : findKey d.keys ("curve25519:" ++ d.device_id) with
      | none => exact ihm
      | some c =>
        cases he : findKey d.keys ("ed25519:" ++ d.device_id) with
        | none => exact ihm
        | some e =>
          cases hv : verify d with
          | error msg => exact ihm
          | ok b =>
            cases b with
            | false => exact ihm
            | true =>
              simp only [List.map_cons]
              exact List.mem_cons_of_mem _ ihm

/-- C7: a device whose published keys are malformed or whose identity-key
signature fails to verify (returns false or throws) is excluded alone: the
round's result over the full device list equals the result with that device
removed, and every other accepted device still contributes its room-key
entry — no single device failure aborts the round. -/
theorem device_failure_excluded_round_completes
    (verify : VerifyOracle) (createRoomKey : String → String → String)
    (pre post : List DeviceKeysPayload) (bad : DeviceKeysPayload)
    (hbad : deviceRejected verify bad) :
    processDevices verify createRoomKey (pre ++ bad :: post)
      = processDevices verify createRoomKey (pre ++ post) ∧
    (∀ dev ∈ pre ++ post, ¬ deviceRejected verify dev →
      dev.device_id ∈
        (processDevices verify createRoomKey (pre ++ bad :: post)).1.map Prod.fst) := by
  refine ⟨processDevices_elim verify createRoomKey bad hbad pre post, ?_⟩
  intro dev hm hg
  rw [processDevices_elim verify createRoomKey bad hbad pre post]
  exact processDevices_mem verify createRoomKey (pre ++ post) dev hm hg

/-- Witness for C7: a failing-signature device between two verified devices
is dropped and the round's result equals the round without it. -/
theorem device_failure_excluded_round_completes_witness :
    processDevices
      (fun d => if d.device_id == "BAD" then Except.ok false else Except.ok true)
      (fun u e => u ++ e)
      ([⟨"@a:x", "DEV1", [("curve25519:DEV1", "c1"), ("ed25519:DEV1", "e1")]⟩]
        ++ ⟨"@a:x", "BAD", [("curve25519:BAD", "cb"), ("ed25519:BAD", "eb")]⟩ ::
          [⟨"@a:x", "DEV2", [("curve25519:DEV2", "c2"), ("ed25519:DEV2", "e2")]⟩])
      = processDevices
          (fun d => if d.device_id == "BAD" then Except.ok false else Except.ok true)
          (fun u e => u ++ e)
          ([⟨"@a:x", "DEV1", [("curve25519:DEV1", "c1"), ("ed25519:DEV1", "e1")]⟩]
            ++ [⟨"@a:x", "DEV2", [("curve25519:DEV2", "c2"), ("ed25519:DEV2", "e2")]⟩]) := by
  exact (device_failure_excluded_round_completes
    (fun d => if d.device_id == "BAD" then Except.ok false else Except.ok true)
    (fun u e => u ++ e)
    [⟨"@a:x", "DEV1", [("curve25519:DEV1", "c1"), ("ed25519:DEV1", "e1")]⟩]
    [⟨"@a:x", "DEV2", [("curve25519:DEV2", "c2"), ("ed25519:DEV2", "e2")]⟩]
    ⟨"@a:x", "BAD", [("curve25519:BAD", "cb"), ("ed25519:BAD", "eb")]⟩
    (Or.inr (Or.inr
      (fun hx => Except.noConfusion hx (fun h => Bool.noConfusion h))))).1

theorem timelineStep_finished (s : TimelineState) (op : TimelineOp)
    (h : s.isTimelineFinished = true) :
    (timelineStep s op).1.isTimelineFinished = true ∧
    (timelineStep s op).2 = false := by
  rcases s with ⟨fin, pag, init, pbt, top, bot, rt, rb, slc, vis⟩
  simp only at h
  subst h
  cases op with
  | fetchTick act =>
    constructor <;> simp [timelineStep, fetchHistory]
  | slider pos gap svis =>
    cases svis <;> constructor <;> simp [timelineStep, sliderMoved]
  | clear =>
    constructor <;> simp [timelineStep, clearTimeline]

theorem timelineRun_halted (s : TimelineState) (h : s.isTimelineFinished = true) :
    ∀ ops : List TimelineOp,
      (timelineRun s ops).1.isTimelineFinished = true ∧
      (timelineRun s ops).2 = false := by
  intro ops
  induction ops generalizing s with
  | nil => exact ⟨h, rfl⟩
  | cons op ops ih =>
    have hs := timelineStep_finished s op h
    have hr := ih (timelineStep s op).1 hs.1
    simp only [timelineRun]
    exact ⟨hr.1, by rw [hs.2, hr.2]; rfl⟩

/-- C6: a `/messages` response whose batch is empty and whose end cursor is
empty or equal to its start cursor marks the timeline finished and changes
nothing else; from that state no sequence of spontaneous operations
(pagination-timer ticks, scrollbar moves, widget purges) ever issues another
history fetch, and the finished flag survives them all — it stays halted
until an explicit reset.  Every other response stages its chunk at the end
of the buffer in batch order (rendering and clearing the buffer when the
view is visible) and advances the pagination cursor to the response's end
token. -/
theorem pagination_halt_and_advance (s : TimelineState) (msgs : Messages) :
    (isStartOfTimeline msgs = true →
      (addBackwardsEvents s msgs).1 = { s with isTimelineFinished := true } ∧
      (∀ ops : List TimelineOp,
        (timelineRun (addBackwardsEvents s msgs).1 ops).2 = false ∧
        (timelineRun (addBackwardsEvents s msgs).1 ops).1.isTimelineFinished
          = true)) ∧
    (isStartOfTimeline msgs = false →
      (addBackwardsEvents s msgs).1.prev_batch_token = msgs.end_ ∧
      (addBackwardsEvents s msgs).1.isPaginationInProgress = false ∧
      (addBackwardsEvents s msgs).1.isTimelineFinished = false ∧
      (s.isVisible = false →
        (addBackwardsEvents s msgs).1.topMessages = s.topMessages ++ msgs.chunk) ∧
      (s.isVisible = true →
        (addBackwardsEvents s msgs).1.renderedTop
          = s.renderedTop ++ [s.topMessages ++ msgs.chunk] ∧
        (addBackwardsEvents s msgs).1.topMessages = [])) := by
  constructor
  · intro h
    have heq : (addBackwardsEvents s msgs).1 = { s with isTimelineFinished := true } := by
      simp only [addBackwardsEvents, h, if_true]
    refine ⟨heq, fun ops => ?_⟩
    have hfin : (addBackwardsEvents s msgs).1.isTimelineFinished = true := by
      rw [heq]
    exact ⟨(timelineRun_halted _ hfin ops).2, (timelineRun_halted _ hfin ops).1⟩
  · intro h
    rcases s with ⟨fin, pag, init, pbt, top, bot, rt, rb, slc, vis⟩
    cases vis <;>
      simp [addBackwardsEvents, h]

/-- Witness for C6: an empty batch whose end cursor equals its start cursor
halts pagination; a timer tick, a scrollbar move into the fetch zone, and a
widget purge afterwards issue no history fetch. -/
theorem pagination_halt_and_advance_witness :
    (timelineRun (addBackwardsEvents {} ⟨"tok", "tok", []⟩).1
        [TimelineOp.fetchTick false, TimelineOp.slider 0 400 true,
         TimelineOp.clear]).2 = false := by
  have h := (pagination_halt_and_advance {} ⟨"tok", "tok", []⟩).1 (by decide)
  exact (h.2 [TimelineOp.fetchTick false, TimelineOp.slider 0 400 true,
    TimelineOp.clear]).1

theorem updatePendingMessage_hit_fresh
    (rest ps : List PendingMessage) (ws : List (Nat × Widget))
    (ei : List (String × Nat)) (T E me : String) (menc : Bool) (w : Nat)
    (wd : Widget) (hwd : lookupW ws w = some wd) (hnr : wd.received = false) :
    updatePendingMessage ⟨⟨T, me, menc, some w⟩ :: rest, ps, ws, ei⟩ T E
      = sendNextPendingMessage
          ⟨rest, ps ++ [⟨T, E, menc, some w⟩],
           updateW (updateW ws w (setEventIdW E)) w markReceivedW,
           insertEid ei E w⟩ := by
  have hbT : (T == T) = true := beq_self_eq_true T
  have hlw : lookupW (updateW ws w (setEventIdW E)) w = some (setEventIdW E wd) := by
    rw [lookupW_updateW_self, hwd]
    rfl
  have hrc : (!(setEventIdW E wd).received) = true := by
    simp [setEventIdW, hnr]
  simp only [updatePendingMessage, hbT, if_true, hlw, hrc]

theorem updatePendingMessage_hit_received
    (rest ps : List PendingMessage) (ws : List (Nat × Widget))
    (ei : List (String × Nat)) (T E me : String) (menc : Bool) (w : Nat)
    (wd : Widget) (hwd : lookupW ws w = some wd) (hnr : wd.received = true) :
    updatePendingMessage ⟨⟨T, me, menc, some w⟩ :: rest, ps, ws, ei⟩ T E
      = sendNextPendingMessage
          ⟨rest, ps, updateW ws w (setEventIdW E), insertEid ei E w⟩ := by
  have hbT : (T == T) = true := beq_self_eq_true T
  have hlw : lookupW (updateW ws w (setEventIdW E)) w = some (setEventIdW E wd) := by
    rw [lookupW_updateW_self, hwd]
    rfl
  have hrc : (!(setEventIdW E wd).received) = false := by
    simp [setEventIdW, hnr]
  simp only [updatePendingMessage, hbT, if_true, hlw, hrc, Bool.false_eq_true,
    if_neg, not_false_iff]

theorem removeSentAux_no_match (txn : String) :
    ∀ (rest kept : List PendingMessage) (trig : Bool),
      (∀ m ∈ rest, (m.txn_id == txn) = false) →
      removeSentAux txn kept rest trig = (kept ++ rest, trig) := by
  intro rest
  induction rest with
  | nil =>
    intro kept trig h
    simp [removeSentAux]
  | cons m ms ih =>
    intro kept trig h
    have hm := h m (List.mem_cons_self m ms)
    simp only [removeSentAux, hm, Bool.false_eq_true, if_neg, not_false_iff]
    rw [ih (kept ++ [m]) trig (fun x hx => h x (List.mem_cons_of_mem m hx))]
    simp

theorem removeSentAux_last (txn : String) (m0 : PendingMessage)
    (hm0 : (m0.txn_id == txn) = true) :
    ∀ (xs kept : List PendingMessage) (trig : Bool),
      (∀ m ∈ xs, (m.txn_id == txn) = false) →
      removeSentAux txn kept (xs ++ [m0]) trig
        = (kept ++ xs, trig || (kept ++ xs).isEmpty) := by
  intro xs
  induction xs with
  | nil =>
    intro kept trig h
    simp only [List.nil_append, removeSentAux, hm0, if_true]
    simp [removeSentAux]
  | cons x xs ih =>
    intro kept trig h
    have hx := h x (List.mem_cons_self x xs)
    simp only [List.cons_append, removeSentAux, hx, Bool.false_eq_true, if_neg,
      not_false_iff, List.append_eq]
    rw [ih (kept ++ [x]) trig (fun y hy => h y (List.mem_cons_of_mem x hy))]
    simp

theorem syncMarkReceived_none (X : QueueState) (txn : String)
    (h : X.pending_msgs.find? (fun m => m.txn_id == txn) = none) :
    syncMarkReceived X txn = X := by
  unfold syncMarkReceived
  rw [h]

theorem syncMarkReceived_head
    (rest ps : List PendingMessage) (ws : List (Nat × Widget))
    (ei : List (String × Nat)) (T me : String) (menc : Bool) (w : Nat)
    (txn : String) (hb : (T == txn) = true) :
    syncMarkReceived ⟨⟨T, me, menc, some w⟩ :: rest, ps, ws, ei⟩ txn
      = ⟨⟨T, me, menc, some w⟩ :: rest, ps, updateW ws w markReceivedW, ei⟩ := by
  have hfind : List.find? (fun m => m.txn_id == txn)
      ((⟨T, me, menc, some w⟩ : PendingMessage) :: rest)
      = some ⟨T, me, menc, some w⟩ :=
    List.find?_cons_of_pos _ hb
  unfold syncMarkReceived
  rw [hfind]

theorem lookupEid_insert (ei : List (String × Nat)) (k : String) (v : Nat) :
    lookupEid (insertEid ei k v) k = some v := by
  unfold lookupEid insertEid
  rw [List.find?_cons_of_pos _ (by simp)]
  rfl

theorem sendNext_idem (Y : QueueState) :
    (sendNextPendingMessage (sendNextPendingMessage Y).1).1
      = (sendNextPendingMessage Y).1 := by
  rcases Y with ⟨pm, ps, ws, ei⟩
  cases pm with
  | nil => rfl
  | cons m rest =>
    rcases m with ⟨mt, me, menc, mw⟩
    cases mw with
    | none => rfl
    | some w2 =>
      simp only [sendNextPendingMessage]
      congr 1
      rw [updateW_updateW]
      exact congrArg (updateW ws w2) (funext fun x => by cases x; rfl)

/-- C1: convergence of the two interleavings.  For a pending message with
transaction id `T` at the head of the queue, widget `w` not yet received,
both orders — transport acknowledgment (`updatePendingMessage`, carrying the
server event id `E`) before the live-sync observation
(`removePendingMessage`), and the reverse — drive the queue to the identical
final state: the message is gone from both queues, its widget is marked
received exactly once (`receivedCount = 1`) with `E` bound to it, `E` maps
to the widget in the registry, and no new widget was created
(the widget store keeps its size). -/
theorem ack_sync_interleavings_converge
    (s : QueueState) (sent0 rest : List PendingMessage)
    (ws : List (Nat × Widget)) (ei : List (String × Nat))
    (T E me : String) (menc : Bool) (w : Nat) (wd : Widget)
    (hs : s = ⟨⟨T, me, menc, some w⟩ :: rest, sent0, ws, ei⟩)
    (hT : (T == "") = false)
    (hwd : lookupW ws w = some wd)
    (hnr : wd.received = false)
    (hcnt : wd.receivedCount = 0)
    (hrest : ∀ m ∈ rest, (m.txn_id == T) = false)
    (hrw : ∀ m ∈ rest, m.widget ≠ some w)
    (hsent : ∀ m ∈ sent0, (m.txn_id == T) = false) :
    (removePendingMessage (updatePendingMessage s T E).1 T).1
      = (updatePendingMessage (removePendingMessage s T).1 T E).1 ∧
    (removePendingMessage (updatePendingMessage s T E).1 T).1.pending_msgs = rest ∧
    (removePendingMessage (updatePendingMessage s T E).1 T).1.pending_sent_msgs
      = sent0 ∧
    lookupW (removePendingMessage (updatePendingMessage s T E).1 T).1.widgets w
      = some { sent := wd.sent, received := true, receivedCount := 1
               eventId := some E } ∧
    lookupEid (removePendingMessage (updatePendingMessage s T E).1 T).1.eventIds E
      = some w ∧
    (removePendingMessage (updatePendingMessage s T E).1 T).1.widgets.length
      = ws.length := by
  subst hs
  have hbT : (T == T) = true := beq_self_eq_true T
  have hackA := updatePendingMessage_hit_fresh rest sent0 ws ei T E me menc w wd
    hwd hnr
  have hloopB : removeSentLoop ⟨⟨T, me, menc, some w⟩ :: rest, sent0, ws, ei⟩ T
      = (⟨⟨T, me, menc, some w⟩ :: rest, sent0, ws, ei⟩, none) := by
    unfold removeSentLoop
    rw [removeSentAux_no_match T sent0 [] false hsent]
    simp
  have hremB : removePendingMessage
        (⟨⟨T, me, menc, some w⟩ :: rest, sent0, ws, ei⟩ : QueueState) T
      = (⟨⟨T, me, menc, some w⟩ :: rest, sent0,
          updateW ws w markReceivedW, ei⟩, none) := by
    unfold removePendingMessage
    simp only [hT, Bool.false_eq_true, if_neg, not_false_iff, hloopB]
    rw [syncMarkReceived_head rest sent0 ws ei T me menc w T hbT]
  have hlwB : lookupW (updateW ws w markReceivedW) w
      = some (markReceivedW wd) := by
    rw [lookupW_updateW_self, hwd]
    rfl
  have hackB := updatePendingMessage_hit_received rest sent0
    (updateW ws w markReceivedW) ei T E me menc w (markReceivedW wd) hlwB rfl
  have hWeq : updateW (updateW ws w (setEventIdW E)) w markReceivedW
      = updateW (updateW ws w markReceivedW) w (setEventIdW E) := by
    rw [updateW_updateW, updateW_updateW]
    exact congrArg (updateW ws w) (funext fun x => by cases x; rfl)
  have hlook2 : lookupW (updateW (updateW ws w (setEventIdW E)) w markReceivedW) w
      = some { sent := wd.sent, received := true, receivedCount := 1
               eventId := some E } := by
    rw [lookupW_updateW_self, lookupW_updateW_self, hwd]
    have hv : markReceivedW (setEventIdW E wd)
        = ⟨wd.sent, true, wd.receivedCount + 1, some E⟩ := by
      cases wd
      rfl
    simp [hv, hcnt]
  have hsyncA : ∀ (pm : List PendingMessage) (W : List (Nat × Widget)),
      pm.find? (fun m => m.txn_id == T) = none →
      (removePendingMessage
          (⟨pm, sent0 ++ [⟨T, E, menc, some w⟩], W, insertEid ei E w⟩ : QueueState)
          T).1
        = (if sent0.isEmpty
            then (sendNextPendingMessage
                    (⟨pm, sent0, W, insertEid ei E w⟩ : QueueState)).1
            else ⟨pm, sent0, W, insertEid ei E w⟩) := by
    intro pm W hfind
    unfold removePendingMessage
    simp only [hT, Bool.false_eq_true, if_neg, not_false_iff]
    unfold removeSentLoop
    rw [removeSentAux_last T ⟨T, E, menc, some w⟩ hbT sent0 [] false hsent]
    simp only [List.nil_append, Bool.false_or]
    cases hse : sent0.isEmpty
    · simp only [Bool.false_eq_true, if_neg, not_false_iff]
      rw [syncMarkReceived_none _ _ hfind]
    · simp only [if_true]
      refine syncMarkReceived_none _ _ ?_
      rw [sendNext_pending_msgs]
      exact hfind
  rcases rest with _ | ⟨⟨t2, e2, enc2, mw2⟩, rest'⟩
  · -- rest = []
    have hA : (removePendingMessage
        (updatePendingMessage
          (⟨⟨T, me, menc, some w⟩ :: [], sent0, ws, ei⟩ : QueueState) T E).1 T).1
        = ⟨[], sent0, updateW (updateW ws w (setEventIdW E)) w markReceivedW,
            insertEid ei E w⟩ := by
      rw [hackA]
      refine (hsyncA [] _ rfl).trans ?_
      cases hse : sent0.isEmpty <;> simp [sendNextPendingMessage]
    have hB : (updatePendingMessage
        (removePendingMessage
          (⟨⟨T, me, menc, some w⟩ :: [], sent0, ws, ei⟩ : QueueState) T).1 T E).1
        = ⟨[], sent0, updateW (updateW ws w (setEventIdW E)) w markReceivedW,
            insertEid ei E w⟩ := by
      rw [hremB]
      show (updatePendingMessage
        (⟨⟨T, me, menc, some w⟩ :: [], sent0, updateW ws w markReceivedW, ei⟩ :
          QueueState) T E).1 = _
      rw [hackB]
      exact congrArg (fun W => (⟨[], sent0, W, insertEid ei E w⟩ : QueueState))
        hWeq.symm
    refine ⟨hA.trans hB.symm, ?_, ?_, ?_, ?_, ?_⟩
    · rw [hA]
    · rw [hA]
    · rw [hA]
      exact hlook2
    · rw [hA]
      exact lookupEid_insert ei E w
    · rw [hA]
      show (updateW (updateW ws w (setEventIdW E)) w markReceivedW).length = _
      rw [updateW_length, updateW_length]
  · cases mw2 with
    | none =>
      have hfind2 : (((⟨t2, e2, enc2, none⟩ : PendingMessage) :: rest').find?
          (fun m => m.txn_id == T)) = none := by
        refine List.find?_eq_none.mpr (fun m hm => ?_)
        rw [hrest m hm]
        exact Bool.false_ne_true
      have hA : (removePendingMessage
          (updatePendingMessage
            (⟨⟨T, me, menc, some w⟩ :: ⟨t2, e2, enc2, none⟩ :: rest', sent0, ws,
              ei⟩ : QueueState) T E).1 T).1
          = ⟨⟨t2, e2, enc2, none⟩ :: rest', sent0,
              updateW (updateW ws w (setEventIdW E)) w markReceivedW,
              insertEid ei E w⟩ := by
        rw [hackA]
        refine (hsyncA (⟨t2, e2, enc2, none⟩ :: rest') _ hfind2).trans ?_
        cases hse : sent0.isEmpty <;> simp [sendNextPendingMessage]
      have hB : (updatePendingMessage
          (removePendingMessage
            (⟨⟨T, me, menc, some w⟩ :: ⟨t2, e2, enc2, none⟩ :: rest', sent0, ws,
              ei⟩ : QueueState) T).1 T E).1
          = ⟨⟨t2, e2, enc2, none⟩ :: rest', sent0,
              updateW (updateW ws w (setEventIdW E)) w markReceivedW,
              insertEid ei E w⟩ := by
        rw [hremB]
        show (updatePendingMessage
          (⟨⟨T, me, menc, some w⟩ :: ⟨t2, e2, enc2, none⟩ :: rest', sent0,
            updateW ws w markReceivedW, ei⟩ : QueueState) T E).1 = _
        rw [hackB]
        exact congrArg
          (fun W => (⟨⟨t2, e2, enc2, none⟩ :: rest', sent0, W,
            insertEid ei E w⟩ : QueueState)) hWeq.symm
      refine ⟨hA.trans hB.symm, ?_, ?_, ?_, ?_, ?_⟩
      · rw [hA]
      · rw [hA]
      · rw [hA]
        exact hlook2
      · rw [hA]
        exact lookupEid_insert ei E w
      · rw [hA]
        show (updateW (updateW ws w (setEventIdW E)) w markReceivedW).length = _
        rw [updateW_length, updateW_length]
    | some w2 =>
      have hw2 : w2 ≠ w := by
        intro hx
        exact hrw ⟨t2, e2, enc2, some w2⟩ (List.mem_cons_self _ _) (by rw [hx])
      have hfind2 : (((⟨t2, e2, enc2, some w2⟩ : PendingMessage) :: rest').find?
          (fun m => m.txn_id == T)) = none := by
        refine List.find?_eq_none.mpr (fun m hm => ?_)
        rw [hrest m hm]
        exact Bool.false_ne_true
      have hsidem : updateW
            (updateW (updateW (updateW ws w (setEventIdW E)) w markReceivedW)
              w2 markSentW) w2 markSentW
          = updateW (updateW (updateW ws w (setEventIdW E)) w markReceivedW)
              w2 markSentW := by
        rw [updateW_updateW]
        exact congrArg
          (updateW (updateW (updateW ws w (setEventIdW E)) w markReceivedW) w2)
          (funext fun x => by cases x; rfl)
      have hA : (removePendingMessage
          (updatePendingMessage
            (⟨⟨T, me, menc, some w⟩ :: ⟨t2, e2, enc2, some w2⟩ :: rest', sent0,
              ws, ei⟩ : QueueState) T E).1 T).1
          = ⟨⟨t2, e2, enc2, some w2⟩ :: rest', sent0,
              updateW (updateW (updateW ws w (setEventIdW E)) w markReceivedW)
                w2 markSentW,
              insertEid ei E w⟩ := by
        rw [hackA]
        refine (hsyncA (⟨t2, e2, enc2, some w2⟩ :: rest') _ hfind2).trans ?_
        cases hse : sent0.isEmpty
        · simp
        · simp only [if_true]
          show (⟨⟨t2, e2, enc2, some w2⟩ :: rest', sent0, _, _⟩ : QueueState) = _
          rw [hsidem]
      have hB : (updatePendingMessage
          (removePendingMessage
            (⟨⟨T, me, menc, some w⟩ :: ⟨t2, e2, enc2, some w2⟩ :: rest', sent0,
              ws, ei⟩ : QueueState) T).1 T E).1
          = ⟨⟨t2, e2, enc2, some w2⟩ :: rest', sent0,
              updateW (updateW (updateW ws w (setEventIdW E)) w markReceivedW)
                w2 markSentW,
              insertEid ei E w⟩ := by
        rw [hremB]
        show (updatePendingMessage
          (⟨⟨T, me, menc, some w⟩ :: ⟨t2, e2, enc2, some w2⟩ :: rest', sent0,
            updateW ws w markReceivedW, ei⟩ : QueueState) T E).1 = _
        rw [hackB]
        show (⟨⟨t2, e2, enc2, some w2⟩ :: rest', sent0,
          updateW (updateW (updateW ws w markReceivedW) w (setEventIdW E))
            w2 markSentW, insertEid ei E w⟩ : QueueState) = _
        rw [hWeq]
      refine ⟨hA.trans hB.symm, ?_, ?_, ?_, ?_, ?_⟩
      · rw [hA]
      · rw [hA]
      · rw [hA]
        show lookupW (updateW
          (updateW (updateW ws w (setEventIdW E)) w markReceivedW)
          w2 markSentW) w = _
        rw [lookupW_updateW_ne _ _ _ _ hw2]
        exact hlook2
      · rw [hA]
        exact lookupEid_insert ei E w
      · rw [hA]
        show (updateW (updateW (updateW ws w (setEventIdW E)) w markReceivedW)
          w2 markSentW).length = _
        rw [updateW_length, updateW_length, updateW_length]

/-- Witness for C1 at a concrete state: one pending message `t1` with widget
0; both interleavings of acknowledgment (event id `$e1`) and sync
observation give the same final state. -/
theorem ack_sync_interleavings_converge_witness :
    (removePendingMessage (updatePendingMessage
        ⟨[⟨"t1", "", false, some 0⟩], [], [(0, ⟨false, false, 0, none⟩)], []⟩
        "t1" "$e1").1 "t1").1
      = (updatePendingMessage (removePendingMessage
        ⟨[⟨"t1", "", false, some 0⟩], [], [(0, ⟨false, false, 0, none⟩)], []⟩
        "t1").1 "t1" "$e1").1 := by
  exact (ack_sync_interleavings_converge _ [] [] [(0, ⟨false, false, 0, none⟩)]
    [] "t1" "$e1" "" false 0 ⟨false, false, 0, none⟩ rfl (by decide) rfl rfl rfl
    (by intro m hm; cases hm) (by intro m hm; cases hm)
    (by intro m hm; cases hm)).1
